import Mathlib

/-!
Shallow embedding of `src/mongo/db/commands/list_collections.cpp`
(`CmdListCollections::run`, lines 68–181): the listCollections command,
its materialization loop, batch-producing loop, and cursor handoff.
Collaborators that live outside the given source (match-expression parser,
namespace helpers, the plan executor, the cursor manager, the byte-ceiling
constant) are modelled from the specification at their interface boundary;
each such definition says so in its doc comment.
-/

namespace ListColl

/-- Opaque per-collection options document (`CollectionOptions::toBSON`).
Modelled from the spec: options are an opaque structured document; we keep
its serialized form abstract. -/
abbrev CollOptions := String

/-- One staged result document `{name, options}` built by the loop at
lines 110–117 of the source. -/
structure CollDoc where
  name : String
  options : CollOptions
deriving DecidableEq, Repr

/-- Catalog-snapshot handle for one database, at the interface the source
consumes: `getCollectionNamespaces` yields full namespaces (`nss`) and
`getCollectionCatalogEntry(ns)->getCollectionOptions` yields options by
namespace (`options`). -/
structure DbCatalog where
  nss : List String
  options : String → CollOptions

/-- Drop characters up to and including the first `'.'`. -/
def dropThroughDot : List Char → List Char
  | [] => []
  | c :: cs => if c = '.' then cs else dropThroughDot cs

/-- Modelled from the spec: the namespace helper `nsToCollectionSubstring`
(namespaces are `<db>.<collection>`; the collection part follows the first
dot), used at line 105 of the source. -/
def nsToCollectionSubstring (ns : String) : String :=
  ⟨dropThroughDot ns.data⟩

/-- Modelled from the spec (§4.2): the filter field of an invocation, at the
parser's interface boundary. `absent` covers a missing field or one that is
not a document (the source only parses `jsobj["filter"].isABSONObj()`);
`malformed` is a filter document rejected by `MatchExpressionParser::parse`
with a structured error; `valid p` is one that compiles to predicate `p`. -/
inductive FilterInput where
  | absent
  | malformed (err : String)
  | valid (p : CollDoc → Bool)

/-- The compiled matcher held by the invocation (`scoped_ptr<MatchExpression>`,
lines 89–97): `none` when no filter object was supplied. -/
def matcherOf : FilterInput → Option (CollDoc → Bool)
  | .valid p => some p
  | _ => none

/-- The wire value of `cursor.batchSize` as the source inspects it
(lines 145–148): absent, present but non-numeric, or a numeric value. -/
inductive BatchSizeField where
  | absent
  | nonNumeric
  | num (n : Int)

/-- Lines 146–148: `batchSizeElem.isNumber() ? batchSizeElem.numberLong() : -1`. -/
def effectiveBatchSize : BatchSizeField → Int
  | .num n => n
  | _ => -1

/-- Observable steps of one invocation, in program order: the RAII lock scope
(`AutoGetDb`, line 77, released when `run` returns), catalog reads,
filter parsing, batch appends, and cursor registration. -/
inductive Event where
  | acquireLock
  | readNames
  | parseFilter
  | readOptions (ns : String)
  | appendBatchDoc
  | registerCursor (id : Nat)
  | releaseLock
deriving DecidableEq, Repr

/-- Lexicographic (byte-wise, as `std::string::operator<`) comparison of
character lists: `lexLeb as bs = true` iff `as` is equal to `bs` or strictly
lexicographically before it. -/
def lexLeb : List Char → List Char → Bool
  | [], _ => true
  | _ :: _, [] => false
  | a :: as, b :: bs => if a < b then true else if b < a then false else lexLeb as bs

/-- Lexicographic order on strings, as `std::string::operator<` compares. -/
def strLe (a b : String) : Prop := lexLeb a.data b.data = true

instance : DecidableRel strLe := fun _ _ => instDecidableEqBool _ _

/-- `names.sort()` at line 86: sort namespaces lexicographically. -/
def sortStrings (l : List String) : List String :=
  l.insertionSort strLe

/-- Line 118: `matcher && !matcher->matchesBSON(maybe)` — a document is kept
unless a matcher is present and rejects it. -/
def keepDoc : Option (CollDoc → Bool) → CollDoc → Bool
  | some m, doc => m doc
  | none, _ => true

/-- The materialization loop, lines 102–129: for each namespace in order,
extract the collection part, skip `system.namespaces`, read the options,
build `{name, options}`, and keep it unless the matcher rejects it.
Returns the staged documents together with the options-read events. -/
def materialize (db : DbCatalog) (matcher : Option (CollDoc → Bool)) :
    List String → List CollDoc × List Event
  | [] => ([], [])
  | ns :: rest =>
    if nsToCollectionSubstring ns = "system.namespaces" then
      materialize db matcher rest
    else if keepDoc matcher ⟨nsToCollectionSubstring ns, db.options ns⟩ then
      (⟨nsToCollectionSubstring ns, db.options ns⟩ :: (materialize db matcher rest).1,
        Event.readOptions ns :: (materialize db matcher rest).2)
    else
      ((materialize db matcher rest).1, Event.readOptions ns :: (materialize db matcher rest).2)

/-- Lines 79–87 and 102–129 combined: an absent database yields no names
(and no reads); otherwise the sorted namespaces are materialized. -/
def stagedWithEvents (d : Option DbCatalog) (matcher : Option (CollDoc → Bool)) :
    List CollDoc × List Event :=
  match d with
  | none => ([], [])
  | some db => materialize db matcher (sortStrings db.nss)

/-- The staged result sequence handed to the replay executor. -/
def stagedResult (d : Option DbCatalog) (matcher : Option (CollDoc → Bool)) :
    List CollDoc :=
  (stagedWithEvents d matcher).1

/-- The `readNames` trace of lines 83–86: present exactly when the database
exists. -/
def dbEvents : Option DbCatalog → List Event
  | none => []
  | some _ => [Event.readNames]

/-- Modelled from the spec (§6): `MaxBytesToReturnToClientAtOnce`, the fixed
server-wide byte ceiling for one batch (line 152). -/
def MaxBytesToReturnToClientAtOnce : Nat := 4 * 1024 * 1024

/-- The batch-producing loop, lines 153–163: while the accumulated length is
below the byte ceiling and (`batchSize == -1 || objCount < batchSize`), pull
the next staged document and append it; stop at end-of-sequence. `sz` gives
each document's serialized size (wire serialization is out of scope, per the
spec §1, so the accumulated builder length is modelled as the running sum of
`sz`). -/
def batchLoop (sz : CollDoc → Nat) (byteLimit : Nat) (batchSize : Int) :
    List CollDoc → Nat → Int → List CollDoc
  | [], _, _ => []
  | d :: rest, lenAcc, objCount =>
    if lenAcc < byteLimit ∧ (batchSize = -1 ∨ objCount < batchSize) then
      d :: batchLoop sz byteLimit batchSize rest (lenAcc + sz d) (objCount + 1)
    else []

/-- The parked replay executor: the staged sequence plus the position the
first batch stopped at. -/
structure Executor where
  docs : List CollDoc
  pos : Nat
deriving DecidableEq, Repr

/-- Modelled from the spec (§3, §4.6): the global cursor manager, with
process-unique non-zero cursor identifiers. -/
structure Registry where
  nextId : Nat
  entries : List (Nat × Executor)
deriving DecidableEq, Repr

/-- Modelled from the spec (§4.6): `register` hands the executor to the
registry and returns a fresh non-zero cursor id (lines 166–174). -/
def registerCursor (reg : Registry) (e : Executor) : Nat × Registry :=
  (reg.nextId + 1, ⟨reg.nextId + 1, (reg.nextId + 1, e) :: reg.entries⟩)

/-- Line 131: `dbname << ".$cmd." << name` with command name
`listCollections`. -/
def cursorNamespace (dbname : String) : String :=
  dbname ++ ".$cmd." ++ "listCollections"

/-- The single response document: a structured command error
(`appendCommandStatus`, line 94) or `{cursor: {id, ns, firstBatch}}`
(line 177). -/
inductive Response where
  | error (msg : String)
  | ok (cursorId : Nat) (ns : String) (firstBatch : List CollDoc)
deriving DecidableEq, Repr

/-- Lines 99–181 once the filter (if any) has parsed: materialize, drain the
executor into the first batch, and either finish with cursor id `0` or
register a cursor for the unconsumed remainder (`!exec->isEOF()`, line 166). -/
def runParsed (d : Option DbCatalog) (dbname : String)
    (matcher : Option (CollDoc → Bool)) (filterEvents : List Event)
    (bsField : BatchSizeField) (sz : CollDoc → Nat) (reg : Registry) :
    Response × Registry × List Event :=
  let se := stagedWithEvents d matcher
  let batch :=
    batchLoop sz MaxBytesToReturnToClientAtOnce (effectiveBatchSize bsField) se.1 0 0
  let appendEvents : List Event := batch.map (fun _ => Event.appendBatchDoc)
  if (se.1.drop batch.length).isEmpty then
    (Response.ok 0 (cursorNamespace dbname) batch, reg,
      Event.acquireLock ::
        (dbEvents d ++ filterEvents ++ se.2 ++ appendEvents ++ [Event.releaseLock]))
  else
    let r := registerCursor reg ⟨se.1, batch.length⟩
    (Response.ok r.1 (cursorNamespace dbname) batch, r.2,
      Event.acquireLock ::
        (dbEvents d ++ filterEvents ++ se.2 ++ appendEvents ++
          [Event.registerCursor r.1, Event.releaseLock]))

/-- `CmdListCollections::run`, lines 68–181. Control flow follows the source:
the lock scope opens first (line 77) and, being a scoped guard, closes when
the function returns; collection namespaces are listed and sorted
(lines 82–87) before the filter is parsed (lines 89–97); a malformed filter
aborts with its parse status; otherwise materialization, batching and the
conditional cursor handoff run as in `runParsed`. -/
def run (d : Option DbCatalog) (dbname : String) (filter : FilterInput)
    (bsField : BatchSizeField) (sz : CollDoc → Nat) (reg : Registry) :
    Response × Registry × List Event :=
  match filter with
  | .malformed err =>
    (Response.error err, reg,
      Event.acquireLock :: (dbEvents d ++ [Event.parseFilter, Event.releaseLock]))
  | .absent => runParsed d dbname none [] bsField sz reg
  | .valid p => runParsed d dbname (some p) [Event.parseFilter] bsField sz reg

/-- A well-formed catalog for database `dbname` holding collections `colls`
(pairs of collection name and options): namespaces are
`dbname ++ "." ++ name` and options are found by namespace. -/
def mkDb (dbname : String) (colls : List (String × CollOptions)) : DbCatalog :=
  { nss := colls.map (fun c => dbname ++ "." ++ c.1),
    options := fun ns =>
      ((colls.find? (fun c => decide (dbname ++ "." ++ c.1 = ns))).map Prod.snd).getD "" }

/-- Follows the spec's words (§4.3), for the refinement claim about the
materializer: take the collection names sorted lexicographically, exclude the
internal bookkeeping name `system.namespaces`, and build one
`{name, options}` document per remaining name. -/
def specMaterialize (colls : List (String × CollOptions)) : List CollDoc :=
  ((sortStrings (colls.map Prod.fst)).filter
      (fun n => !decide (n = "system.namespaces"))).map
    (fun n => ⟨n, ((colls.find? (fun c => decide (c.1 = n))).map Prod.snd).getD ""⟩)

/-- Total serialized size of a list of staged documents. -/
def sumSz (sz : CollDoc → Nat) (l : List CollDoc) : Nat :=
  (l.map sz).sum

/-- `true` exactly on non-error responses. -/
def isOk : Response → Bool
  | .error _ => false
  | .ok _ _ _ => true

/-- The first batch of a response (empty for an error response). -/
def firstBatchOf : Response → List CollDoc
  | .error _ => []
  | .ok _ _ b => b

/-- Everything an invocation's response reveals except the concrete cursor
identifier: the error message if any, else the namespace, the batch, and
whether the cursor id is zero. -/
def responseView : Response → Option String × Option (String × List CollDoc × Bool)
  | .error e => (some e, none)
  | .ok id ns batch => (none, some (ns, batch, decide (id = 0)))

/-- `true` when a batch append happens while the lock is still held, i.e.
some `appendBatchDoc` event precedes every `releaseLock` event. -/
def appendBeforeRelease : List Event → Bool
  | [] => false
  | Event.releaseLock :: _ => false
  | Event.appendBatchDoc :: _ => true
  | _ :: es => appendBeforeRelease es

/-- Concrete fixture: the spec's example scenario 1, a database with
collections `b`, `a` and the internal `system.namespaces`. -/
def exDb : DbCatalog :=
  mkDb "db" [("b", "o1"), ("a", "o2"), ("system.namespaces", "o3")]

/-- Concrete fixture: a database with a single collection `a`. -/
def oneDb : DbCatalog := mkDb "db" [("a", "o")]

/-- Concrete fixture: every staged document serializes to one byte. -/
def exSz : CollDoc → Nat := fun _ => 1

/-- Concrete fixture: an empty cursor registry. -/
def reg0 : Registry := ⟨0, []⟩

theorem lexLeb_refl (as : List Char) : lexLeb as as = true := by
  induction as with
  | nil => rfl
  | cons a as ih => simp [lexLeb, lt_irrefl, ih]

theorem lexLeb_total (as bs : List Char) : lexLeb as bs = true ∨ lexLeb bs as = true := by
  induction as generalizing bs with
  | nil => left; rfl
  | cons a as ih =>
    cases bs with
    | nil => right; rfl
    | cons b bs =>
      rcases lt_trichotomy a b with h | h | h
      · left; simp [lexLeb, h]
      · subst h; simpa [lexLeb, lt_irrefl] using ih bs
      · right; simp [lexLeb, h]

theorem lexLeb_trans {as bs cs : List Char} (h1 : lexLeb as bs = true)
    (h2 : lexLeb bs cs = true) : lexLeb as cs = true := by
  induction as generalizing bs cs with
  | nil => rfl
  | cons a as ih =>
    cases bs with
    | nil => simp [lexLeb] at h1
    | cons b bs =>
      cases cs with
      | nil => simp [lexLeb] at h2
      | cons c cs =>
        by_cases hab : a < b
        · by_cases hbc : b < c
          · simp [lexLeb, lt_trans hab hbc]
          · by_cases hcb : c < b
            · simp [lexLeb, hbc, hcb] at h2
            · have hbc' : b = c := le_antisymm (le_of_not_lt hcb) (le_of_not_lt hbc)
              subst hbc'; simp [lexLeb, hab]
        · by_cases hba : b < a
          · simp [lexLeb, hab, hba] at h1
          · have hab' : a = b := le_antisymm (le_of_not_lt hba) (le_of_not_lt hab)
            subst hab'
            simp only [lexLeb, lt_irrefl, if_neg, if_false] at h1
            by_cases hac : a < c
            · simp [lexLeb, hac]
            · by_cases hca : c < a
              · simp [lexLeb, hac, hca] at h2
              · have hac' : a = c := le_antisymm (le_of_not_lt hca) (le_of_not_lt hac)
                subst hac'
                simp only [lexLeb, lt_irrefl, if_neg, if_false] at h2 ⊢
                exact ih h1 h2

theorem lexLeb_append_left (p as bs : List Char) :
    lexLeb (p ++ as) (p ++ bs) = lexLeb as bs := by
  induction p with
  | nil => rfl
  | cons c p ih => simp [lexLeb, lt_irrefl, ih]

theorem lexLeb_iff_le (as bs : List Char) :
    lexLeb as bs = true ↔ as = bs ∨ as < bs := by
  induction as generalizing bs with
  | nil =>
    cases bs with
    | nil => simp [lexLeb]
    | cons b bs =>
      simp only [lexLeb, true_iff]
      exact Or.inr (List.Lex.nil)
  | cons a as ih =>
    cases bs with
    | nil =>
      simp only [lexLeb, Bool.false_eq_true, false_iff]
      rintro (h | h)
      · exact List.noConfusion h
      · exact List.Lex.not_nil_right _ _ h
    | cons b bs =>
      rcases lt_trichotomy a b with h | h | h
      · simp only [lexLeb, h, if_pos, true_iff]
        exact Or.inr (List.Lex.rel h)
      · subst h
        simp only [lexLeb, lt_irrefl, if_neg, if_false]
        rw [ih bs]
        constructor
        · rintro (hEq | hLt)
          · exact Or.inl (by rw [hEq])
          · exact Or.inr (List.Lex.cons hLt)
        · rintro (hEq | hLt)
          · exact Or.inl (List.cons.inj hEq).2
          · have hLt' : List.Lex (· < ·) (a :: as) (a :: bs) := hLt
            exact Or.inr (List.Lex.cons_iff.mp hLt')
      · rw [show lexLeb (a :: as) (b :: bs) = false by simp [lexLeb, lt_asymm h, h]]
        simp only [Bool.false_eq_true, false_iff]
        rintro (hEq | hLt)
        · exact absurd (List.cons.inj hEq).1 (ne_of_gt h)
        · have hLt' : List.Lex (· < ·) (a :: as) (b :: bs) := hLt
          cases hLt' with
          | cons h' => exact absurd rfl (ne_of_gt h)
          | rel h' => exact absurd h' (lt_asymm h)

instance : IsTotal String strLe :=
  ⟨fun a b => lexLeb_total a.data b.data⟩

instance : IsTrans String strLe :=
  ⟨fun _ _ _ h1 h2 => lexLeb_trans h1 h2⟩

theorem strLe_append_left (p a b : String) : strLe (p ++ a) (p ++ b) ↔ strLe a b := by
  unfold strLe
  rw [String.data_append, String.data_append, lexLeb_append_left]

theorem string_append_right_inj (p a b : String) : p ++ a = p ++ b ↔ a = b := by
  constructor
  · intro h
    apply String.ext
    have h' := congrArg String.data h
    rw [String.data_append, String.data_append] at h'
    exact List.append_cancel_left h'
  · intro h; rw [h]

theorem orderedInsert_strLe_map (f : String → String)
    (hf : ∀ a b, strLe (f a) (f b) ↔ strLe a b) (a : String) (l : List String) :
    (l.map f).orderedInsert strLe (f a) = (l.orderedInsert strLe a).map f := by
  induction l with
  | nil => rfl
  | cons b l ih =>
    simp only [List.map_cons, List.orderedInsert]
    by_cases h : strLe a b
    · rw [if_pos ((hf a b).mpr h), if_pos h, List.map_cons, List.map_cons]
    · rw [if_neg (fun hc => h ((hf a b).mp hc)), if_neg h, List.map_cons, ih]

theorem sortStrings_map (f : String → String)
    (hf : ∀ a b, strLe (f a) (f b) ↔ strLe a b) (l : List String) :
    sortStrings (l.map f) = (sortStrings l).map f := by
  induction l with
  | nil => rfl
  | cons a l ih =>
    simp only [sortStrings, List.map_cons, List.insertionSort] at *
    rw [ih, orderedInsert_strLe_map f hf]

theorem sortStrings_sorted (l : List String) : (sortStrings l).Sorted strLe :=
  List.sorted_insertionSort strLe l

theorem sortStrings_perm (l : List String) : List.Perm (sortStrings l) l :=
  List.perm_insertionSort strLe l

theorem dropThroughDot_append (l rest : List Char) (h : '.' ∉ l) :
    dropThroughDot (l ++ '.' :: rest) = rest := by
  induction l with
  | nil => simp [dropThroughDot]
  | cons c l ih =>
    have hc : ¬(c = '.') := fun hc => h (by simp [hc])
    simp only [List.cons_append, dropThroughDot, if_neg hc]
    exact ih fun hm => h (List.mem_cons_of_mem _ hm)

theorem nsToCollectionSubstring_append (p n : String) (h : '.' ∉ p.data) :
    nsToCollectionSubstring (p ++ "." ++ n) = n := by
  unfold nsToCollectionSubstring
  rw [String.data_append (p ++ ".") n, String.data_append p ".",
    show (".").data = ['.'] from rfl, List.append_assoc,
    show ['.'] ++ n.data = '.' :: n.data from rfl,
    dropThroughDot_append p.data n.data h]

theorem mkDb_nss (dbname : String) (colls : List (String × CollOptions)) :
    (mkDb dbname colls).nss = (colls.map Prod.fst).map (fun n => dbname ++ "." ++ n) := by
  simp only [mkDb, List.map_map]
  rfl

theorem mkDb_options (dbname : String) (colls : List (String × CollOptions)) (n : String) :
    (mkDb dbname colls).options (dbname ++ "." ++ n) =
      ((colls.find? (fun c => decide (c.1 = n))).map Prod.snd).getD "" := by
  have hp : (fun c : String × CollOptions =>
        decide (dbname ++ "." ++ c.1 = dbname ++ "." ++ n))
      = (fun c : String × CollOptions => decide (c.1 = n)) :=
    funext fun c => decide_eq_decide.mpr (string_append_right_inj (dbname ++ ".") c.1 n)
  simp only [mkDb]
  rw [hp]

theorem materialize_mkDb (dbname : String) (colls : List (String × CollOptions))
    (hdot : '.' ∉ dbname.data) (l : List String) :
    (materialize (mkDb dbname colls) none (l.map (fun n => dbname ++ "." ++ n))).1 =
      (l.filter (fun n => !decide (n = "system.namespaces"))).map
        (fun n => ⟨n, ((colls.find? (fun c => decide (c.1 = n))).map Prod.snd).getD ""⟩) := by
  induction l with
  | nil => rfl
  | cons n l ih =>
    simp only [List.map_cons, materialize, List.filter_cons,
      nsToCollectionSubstring_append dbname n hdot]
    by_cases hn : n = "system.namespaces"
    · rw [if_pos hn, ih]
      simp [hn]
    · rw [if_neg hn, if_pos (show keepDoc none _ = true from rfl)]
      simp only [hn, decide_False, Bool.not_false, if_pos]
      rw [mkDb_options dbname colls n, ih, List.map_cons]

theorem materialize_filter (db : DbCatalog) (p : CollDoc → Bool) (l : List String) :
    (materialize db (some p) l).1 = ((materialize db none l).1).filter p := by
  induction l with
  | nil => rfl
  | cons ns l ih =>
    simp only [materialize]
    by_cases h : nsToCollectionSubstring ns = "system.namespaces"
    · rw [if_pos h, if_pos h, ih]
    · rw [if_neg h, if_neg h, if_pos (show keepDoc none _ = true from rfl)]
      by_cases hp : p ⟨nsToCollectionSubstring ns, db.options ns⟩
      · rw [if_pos (show keepDoc (some p) _ = true from hp)]
        simp only [List.filter_cons, hp, if_pos, ih]
      · rw [if_neg (show ¬keepDoc (some p) _ = true from hp)]
        simp only [List.filter_cons, hp, ih]
        rw [if_neg (by simp [hp])]

theorem materialize_events (db : DbCatalog) (m : Option (CollDoc → Bool)) (l : List String) :
    (materialize db m l).2 =
      (l.filter (fun ns => !decide (nsToCollectionSubstring ns = "system.namespaces"))).map
        Event.readOptions := by
  induction l with
  | nil => rfl
  | cons ns l ih =>
    simp only [materialize, List.filter_cons]
    by_cases h : nsToCollectionSubstring ns = "system.namespaces"
    · rw [if_pos h, ih]
      simp [h]
    · rw [if_neg h]
      by_cases hk : keepDoc m ⟨nsToCollectionSubstring ns, db.options ns⟩
      · rw [if_pos hk]
        simp [h, ih]
      · rw [if_neg hk]
        simp [h, ih]

theorem sumSz_nil (sz : CollDoc → Nat) : sumSz sz [] = 0 := rfl

theorem sumSz_cons (sz : CollDoc → Nat) (d : CollDoc) (l : List CollDoc) :
    sumSz sz (d :: l) = sz d + sumSz sz l := by
  simp [sumSz]

theorem batchLoop_drain (sz : CollDoc → Nat) (byteLimit : Nat) (bs : Int)
    (l : List CollDoc) (lenAcc : Nat) (objCount : Int)
    (hb : lenAcc + sumSz sz l < byteLimit)
    (hc : bs = -1 ∨ objCount + l.length < bs) :
    batchLoop sz byteLimit bs l lenAcc objCount = l := by
  induction l generalizing lenAcc objCount with
  | nil => rfl
  | cons d rest ih =>
    rw [sumSz_cons] at hb
    simp only [List.length_cons] at hc
    rw [batchLoop, if_pos ⟨by omega, by rcases hc with h | h; exact Or.inl h; right; omega⟩,
      ih (lenAcc + sz d) (objCount + 1) (by omega)
        (by rcases hc with h | h; exact Or.inl h; right; omega)]

theorem batchLoop_neg (sz : CollDoc → Nat) (byteLimit : Nat) (n : Int)
    (hn : n < 0) (hne : n ≠ -1) (l : List CollDoc) :
    batchLoop sz byteLimit n l 0 0 = [] := by
  cases l with
  | nil => rfl
  | cons d rest =>
    rw [batchLoop, if_neg]
    rintro ⟨-, h | h⟩
    · exact hne h
    · omega

theorem batchLoop_zero (sz : CollDoc → Nat) (byteLimit : Nat) (l : List CollDoc) :
    batchLoop sz byteLimit 0 l 0 0 = [] := by
  cases l with
  | nil => rfl
  | cons d rest =>
    rw [batchLoop, if_neg]
    rintro ⟨-, h | h⟩ <;> omega

theorem batchLoop_take (sz : CollDoc → Nat) (byteLimit : Nat) (bs : Int)
    (l : List CollDoc) (lenAcc : Nat) (objCount : Int) :
    batchLoop sz byteLimit bs l lenAcc objCount =
      l.take (batchLoop sz byteLimit bs l lenAcc objCount).length := by
  induction l generalizing lenAcc objCount with
  | nil => rfl
  | cons d rest ih =>
    rw [batchLoop]
    by_cases h : lenAcc < byteLimit ∧ (bs = -1 ∨ objCount < bs)
    · rw [if_pos h]
      simp only [List.length_cons, List.take_succ_cons]
      rw [← ih (lenAcc + sz d) (objCount + 1)]
    · rw [if_neg h]
      rfl

theorem batchLoop_count_le (sz : CollDoc → Nat) (byteLimit : Nat) (bs : Int)
    (hbs : 0 ≤ bs) (l : List CollDoc) (lenAcc : Nat) (objCount : Int) :
    (batchLoop sz byteLimit bs l lenAcc objCount).length ≤ (bs - objCount).toNat := by
  induction l generalizing lenAcc objCount with
  | nil => simp [batchLoop]
  | cons d rest ih =>
    rw [batchLoop]
    by_cases h : lenAcc < byteLimit ∧ (bs = -1 ∨ objCount < bs)
    · rw [if_pos h]
      have h2 := ih (lenAcc + sz d) (objCount + 1)
      have h3 : objCount < bs := by rcases h.2 with h' | h'; omega; exact h'
      simp only [List.length_cons]
      omega
    · rw [if_neg h]
      simp

theorem batchLoop_stop (sz : CollDoc → Nat) (byteLimit : Nat) (bs : Int)
    (l : List CollDoc) (lenAcc : Nat) (objCount : Int)
    (h : (batchLoop sz byteLimit bs l lenAcc objCount).length < l.length) :
    ¬(lenAcc + sumSz sz (l.take (batchLoop sz byteLimit bs l lenAcc objCount).length)
        < byteLimit ∧
      (bs = -1 ∨ objCount + ((batchLoop sz byteLimit bs l lenAcc objCount).length : Int)
        < bs)) := by
  induction l generalizing lenAcc objCount with
  | nil => simp [batchLoop] at h
  | cons d rest ih =>
    rw [batchLoop] at h ⊢
    by_cases hcond : lenAcc < byteLimit ∧ (bs = -1 ∨ objCount < bs)
    · rw [if_pos hcond] at h ⊢
      simp only [List.length_cons, List.take_succ_cons, sumSz_cons] at h ⊢
      have h2 := ih (lenAcc + sz d) (objCount + 1) (by omega)
      rintro ⟨hb, hc⟩
      exact h2 ⟨by omega, by rcases hc with h' | h'; exact Or.inl h'; right; omega⟩
    · rw [if_neg hcond] at h ⊢
      simp only [List.length_nil, List.take_zero, sumSz_nil]
      rintro ⟨hb, hc⟩
      exact hcond ⟨by omega, by rcases hc with h' | h'; exact Or.inl h'; right; omega⟩

theorem batchLoop_go (sz : CollDoc → Nat) (byteLimit : Nat) (bs : Int)
    (l : List CollDoc) (lenAcc : Nat) (objCount : Int) (j : Nat)
    (hj : j < (batchLoop sz byteLimit bs l lenAcc objCount).length) :
    lenAcc + sumSz sz (l.take j) < byteLimit ∧
      (bs = -1 ∨ objCount + (j : Int) < bs) := by
  induction l generalizing lenAcc objCount j with
  | nil => simp [batchLoop] at hj
  | cons d rest ih =>
    rw [batchLoop] at hj
    by_cases hcond : lenAcc < byteLimit ∧ (bs = -1 ∨ objCount < bs)
    · rw [if_pos hcond] at hj
      cases j with
      | zero =>
        simp only [List.take_zero, sumSz_nil]
        exact ⟨by omega, by rcases hcond.2 with h' | h'; exact Or.inl h'; right; omega⟩
      | succ j =>
        simp only [List.length_cons, Nat.succ_lt_succ_iff] at hj
        have h2 := ih (lenAcc + sz d) (objCount + 1) j hj
        simp only [List.take_succ_cons, sumSz_cons]
        exact ⟨by omega, by rcases h2.2 with h' | h'; exact Or.inl h'; right; omega⟩
    · rw [if_neg hcond] at hj
      simp at hj

theorem stagedResult_def (d : Option DbCatalog) (m : Option (CollDoc → Bool)) :
    (stagedWithEvents d m).1 = stagedResult d m := rfl

theorem runParsed_exhausted (d : Option DbCatalog) (dbname : String)
    (m : Option (CollDoc → Bool)) (fe : List Event) (bsField : BatchSizeField)
    (sz : CollDoc → Nat) (reg : Registry)
    (hb : sumSz sz (stagedResult d m) < MaxBytesToReturnToClientAtOnce)
    (hc : effectiveBatchSize bsField = -1 ∨
      ((stagedResult d m).length : Int) < effectiveBatchSize bsField) :
    runParsed d dbname m fe bsField sz reg =
      (Response.ok 0 (cursorNamespace dbname) (stagedResult d m), reg,
        Event.acquireLock :: (dbEvents d ++ fe ++ (stagedWithEvents d m).2 ++
          (stagedResult d m).map (fun _ => Event.appendBatchDoc) ++
            [Event.releaseLock])) := by
  have hdrain : batchLoop sz MaxBytesToReturnToClientAtOnce (effectiveBatchSize bsField)
      (stagedResult d m) 0 0 = stagedResult d m :=
    batchLoop_drain _ _ _ _ _ _ (by simpa using hb)
      (by rcases hc with h | h
          · exact Or.inl h
          · right; simpa using h)
  simp only [runParsed, stagedResult_def]
  rw [hdrain, List.drop_length]
  simp

theorem runParsed_firstBatch (d : Option DbCatalog) (dbname : String)
    (m : Option (CollDoc → Bool)) (fe : List Event) (bsf : BatchSizeField)
    (sz : CollDoc → Nat) (reg : Registry) :
    firstBatchOf (runParsed d dbname m fe bsf sz reg).1 =
      batchLoop sz MaxBytesToReturnToClientAtOnce (effectiveBatchSize bsf)
        (stagedResult d m) 0 0 := by
  simp only [runParsed, stagedResult_def]
  split <;> rfl

theorem runParsed_isOk (d : Option DbCatalog) (dbname : String)
    (m : Option (CollDoc → Bool)) (fe : List Event) (bsf : BatchSizeField)
    (sz : CollDoc → Nat) (reg : Registry) :
    isOk (runParsed d dbname m fe bsf sz reg).1 = true := by
  simp only [runParsed]
  split <;> rfl

theorem runParsed_view (d : Option DbCatalog) (dbname : String)
    (m : Option (CollDoc → Bool)) (fe : List Event) (bsf : BatchSizeField)
    (sz : CollDoc → Nat) (reg : Registry) :
    responseView (runParsed d dbname m fe bsf sz reg).1 =
      (none, some (cursorNamespace dbname,
        batchLoop sz MaxBytesToReturnToClientAtOnce (effectiveBatchSize bsf)
          (stagedResult d m) 0 0,
        ((stagedResult d m).drop (batchLoop sz MaxBytesToReturnToClientAtOnce
          (effectiveBatchSize bsf) (stagedResult d m) 0 0).length).isEmpty)) := by
  simp only [runParsed, stagedResult_def]
  split
  next h =>
    simp [responseView, h]
  next h =>
    rw [Bool.not_eq_true] at h
    simp [responseView, registerCursor, h]

theorem no_register_in_base (d : Option DbCatalog) (m : Option (CollDoc → Bool))
    (fe : List Event) (hfe : ∀ i, Event.registerCursor i ∉ fe) (i : Nat) :
    Event.registerCursor i ∉
      Event.acquireLock :: (dbEvents d ++ fe ++ (stagedWithEvents d m).2 ++
        (stagedResult d m).map (fun _ => Event.appendBatchDoc) ++
          [Event.releaseLock]) := by
  intro hmem
  simp only [List.mem_cons, List.mem_append, List.mem_singleton] at hmem
  rcases hmem with h | ((((h | h) | h) | h) | h)
  · exact Event.noConfusion h
  · cases d with
    | none => simp [dbEvents] at h
    | some db =>
      simp only [dbEvents, List.mem_singleton] at h
      exact Event.noConfusion h
  · exact hfe i h
  · cases d with
    | none => simp [stagedWithEvents] at h
    | some db =>
      rw [show (stagedWithEvents (some db) m).2
          = (materialize db m (sortStrings db.nss)).2 from rfl,
        materialize_events] at h
      rcases List.mem_map.mp h with ⟨ns, -, hx⟩
      exact Event.noConfusion hx
  · rcases List.mem_map.mp h with ⟨x, -, hx⟩
    exact Event.noConfusion hx
  · rcases h with h | h
    · exact Event.noConfusion h
    · simp at h

theorem trace_head_last_count (mid : List Event)
    (h : Event.releaseLock ∉ mid) :
    (Event.acquireLock :: (mid ++ [Event.releaseLock])).head? = some Event.acquireLock ∧
    (Event.acquireLock :: (mid ++ [Event.releaseLock])).getLast?
      = some Event.releaseLock ∧
    (Event.acquireLock :: (mid ++ [Event.releaseLock])).count Event.releaseLock = 1 := by
  refine ⟨rfl, ?_, ?_⟩
  · rw [show Event.acquireLock :: (mid ++ [Event.releaseLock])
        = (Event.acquireLock :: mid) ++ [Event.releaseLock] from rfl,
      List.getLast?_concat]
  · simp [List.count_cons, List.count_append, List.count_eq_zero.mpr h]

theorem trace_head_last_count2 (mid : List Event) (i : Nat)
    (h : Event.releaseLock ∉ mid) :
    (Event.acquireLock :: (mid ++ [Event.registerCursor i, Event.releaseLock])).head?
      = some Event.acquireLock ∧
    (Event.acquireLock :: (mid ++ [Event.registerCursor i, Event.releaseLock])).getLast?
      = some Event.releaseLock ∧
    (Event.acquireLock ::
        (mid ++ [Event.registerCursor i, Event.releaseLock])).count Event.releaseLock
      = 1 := by
  refine ⟨rfl, ?_, ?_⟩
  · rw [show Event.acquireLock :: (mid ++ [Event.registerCursor i, Event.releaseLock])
        = (Event.acquireLock :: (mid ++ [Event.registerCursor i]))
            ++ [Event.releaseLock] by simp,
      List.getLast?_concat]
  · simp [List.count_cons, List.count_append, List.count_eq_zero.mpr h]

theorem runParsed_zero_registers (d : Option DbCatalog) (dbname : String)
    (m : Option (CollDoc → Bool)) (fe : List Event)
    (sz : CollDoc → Nat) (reg : Registry) (h : stagedResult d m ≠ []) :
    (runParsed d dbname m fe (.num 0) sz reg).1 =
      Response.ok (reg.nextId + 1) (cursorNamespace dbname) [] ∧
    Event.registerCursor (reg.nextId + 1) ∈
      (runParsed d dbname m fe (.num 0) sz reg).2.2 := by
  have hz : batchLoop sz MaxBytesToReturnToClientAtOnce
      (effectiveBatchSize (.num 0)) (stagedWithEvents d m).1 0 0 = [] :=
    batchLoop_zero sz _ _
  have hne : (stagedWithEvents d m).1.isEmpty = false := by
    rcases hs : (stagedWithEvents d m).1 with - | ⟨x, xs⟩
    · exact absurd hs h
    · rfl
  simp only [runParsed]
  rw [hz]
  simp only [List.length_nil, List.drop_zero]
  rw [if_neg (by simp [hne])]
  refine ⟨rfl, ?_⟩
  simp [registerCursor]

theorem sortStrings_pairwise_lt (X : List String) (hnd : X.Nodup) :
    (sortStrings X).Pairwise (fun a b : String => a.data < b.data) := by
  have hs : (sortStrings X).Pairwise strLe := sortStrings_sorted X
  have hn : (sortStrings X).Nodup := ((sortStrings_perm X).symm).nodup hnd
  refine (hs.and hn).imp ?_
  rintro a b ⟨hle, hne⟩
  rcases (lexLeb_iff_le a.data b.data).mp hle with hEq | hLt
  · exact absurd (String.ext hEq) hne
  · exact hLt

/-- C1: for every well-formed catalog snapshot (dot-free database name,
unique collection names), the materialization step produces exactly one
`{name, options}` document per collection, equal to the spec-side reference
(sorted names, internal `system.namespaces` excluded), the staged names are
strictly lexicographically increasing, and no staged document is the
internal bookkeeping collection. -/
theorem listing_sorted_unique_excluding_internal (dbname : String)
    (colls : List (String × CollOptions))
    (hdot : '.' ∉ dbname.data) (hnd : (colls.map Prod.fst).Nodup) :
    stagedResult (some (mkDb dbname colls)) none = specMaterialize colls ∧
    ((stagedResult (some (mkDb dbname colls)) none).map CollDoc.name).Pairwise
      (fun a b : String => a.data < b.data) ∧
    ∀ doc ∈ stagedResult (some (mkDb dbname colls)) none,
      doc.name ≠ "system.namespaces" := by
  have heq : stagedResult (some (mkDb dbname colls)) none = specMaterialize colls := by
    show (materialize (mkDb dbname colls) none
      (sortStrings (mkDb dbname colls).nss)).1 = _
    rw [mkDb_nss, sortStrings_map _ (fun a b => strLe_append_left (dbname ++ ".") a b),
      materialize_mkDb dbname colls hdot]
    rfl
  refine ⟨heq, ?_, ?_⟩
  · rw [heq]
    unfold specMaterialize
    rw [List.pairwise_map, List.pairwise_map]
    exact (sortStrings_pairwise_lt (colls.map Prod.fst) hnd).filter _
  · rw [heq]
    intro doc hdoc
    rcases List.mem_map.mp hdoc with ⟨n, hn, rfl⟩
    have hf := List.of_mem_filter hn
    simpa using hf

/-- C1 witness: the spec's example scenario 1 — collections
`{"b", "a", "system.namespaces"}` materialize, with staged name order
`["a", "b"]`. -/
theorem listing_sorted_witness :
    stagedResult (some (mkDb "db" [("b", "o1"), ("a", "o2"), ("system.namespaces", "o3")]))
        none
      = specMaterialize [("b", "o1"), ("a", "o2"), ("system.namespaces", "o3")] ∧
    (stagedResult (some exDb) none).map CollDoc.name = ["a", "b"] :=
  ⟨(listing_sorted_unique_excluding_internal "db"
      [("b", "o1"), ("a", "o2"), ("system.namespaces", "o3")]
      (by decide) (by decide)).1,
    by decide⟩

/-- C2: a document from the unfiltered materialized result appears in the
filtered staged result iff the predicate accepts it; the filtered result is
exactly the predicate-filter of the unfiltered one. -/
theorem filter_correctness (d : Option DbCatalog) (p : CollDoc → Bool) :
    stagedResult d (some p) = (stagedResult d none).filter p ∧
    ∀ doc : CollDoc, doc ∈ stagedResult d (some p) ↔
      doc ∈ stagedResult d none ∧ p doc = true := by
  have heq : stagedResult d (some p) = (stagedResult d none).filter p := by
    cases d with
    | none => rfl
    | some db => exact materialize_filter db p (sortStrings db.nss)
  exact ⟨heq, fun doc => by rw [heq, List.mem_filter]⟩

/-- C3: when the staged result fits strictly under the byte ceiling and the
count limit, the response carries cursor id 0 and the entire staged result,
the registry is unchanged, and no registration event occurs. -/
theorem no_cursor_on_exhaustion (d : Option DbCatalog) (dbname : String)
    (f : FilterInput) (bsf : BatchSizeField) (sz : CollDoc → Nat) (reg : Registry)
    (hf : ∀ e, f ≠ FilterInput.malformed e)
    (hb : sumSz sz (stagedResult d (matcherOf f)) < MaxBytesToReturnToClientAtOnce)
    (hc : effectiveBatchSize bsf = -1 ∨
      ((stagedResult d (matcherOf f)).length : Int) < effectiveBatchSize bsf) :
    (run d dbname f bsf sz reg).1 =
      Response.ok 0 (cursorNamespace dbname) (stagedResult d (matcherOf f)) ∧
    (run d dbname f bsf sz reg).2.1 = reg ∧
    ∀ i, Event.registerCursor i ∉ (run d dbname f bsf sz reg).2.2 := by
  cases f with
  | malformed e => exact absurd rfl (hf e)
  | absent =>
    have h := runParsed_exhausted d dbname none [] bsf sz reg hb hc
    rw [show run d dbname .absent bsf sz reg
        = runParsed d dbname none [] bsf sz reg from rfl, h]
    exact ⟨rfl, rfl, no_register_in_base d none [] (fun i hi => by simp at hi)⟩
  | valid p =>
    have h := runParsed_exhausted d dbname (some p) [Event.parseFilter] bsf sz reg hb hc
    rw [show run d dbname (.valid p) bsf sz reg
        = runParsed d dbname (some p) [Event.parseFilter] bsf sz reg from rfl, h]
    exact ⟨rfl, rfl, no_register_in_base d (some p) [Event.parseFilter]
      (fun i hi => by simp at hi)⟩

/-- C3 witness: a one-collection database drains within both limits — the
response is complete with cursor id 0. -/
theorem no_cursor_on_exhaustion_witness :
    sumSz exSz (stagedResult (some oneDb) (matcherOf .absent))
        < MaxBytesToReturnToClientAtOnce ∧
    (run (some oneDb) "db" .absent .absent exSz reg0).1 =
      Response.ok 0 (cursorNamespace "db")
        (stagedResult (some oneDb) (matcherOf .absent)) :=
  ⟨by decide,
    (no_cursor_on_exhaustion (some oneDb) "db" .absent .absent exSz reg0
      (fun e h => FilterInput.noConfusion h) (by decide) (by decide)).1⟩

/-- C4 counterexample: with a malformed filter the command does fail, but the
collection namespaces have already been read from the catalog — the trace of
the failing invocation contains the catalog read event, contradicting
"before any catalog access (no collection names read)". -/
theorem malformed_filter_cex :
    Event.readNames ∈
      (run (some oneDb) "db" (FilterInput.malformed "bad") .absent exSz reg0).2.2 ∧
    (run (some oneDb) "db" (FilterInput.malformed "bad") .absent exSz reg0).1 =
      Response.error "bad" := by
  exact ⟨by decide, rfl⟩

/-- C4 amended: a malformed filter makes the command fail with the structured
parse error before any collection options are read and before any document is
materialized or batched — no options-read event, no batch-append event, no
partial results, and no cursor registration (the namespace listing, however,
happens before filter parsing). -/
theorem malformed_filter_aborts (d : Option DbCatalog) (dbname err : String)
    (bsf : BatchSizeField) (sz : CollDoc → Nat) (reg : Registry) :
    (run d dbname (FilterInput.malformed err) bsf sz reg).1 = Response.error err ∧
    (run d dbname (FilterInput.malformed err) bsf sz reg).2.1 = reg ∧
    (∀ ns, Event.readOptions ns ∉
      (run d dbname (FilterInput.malformed err) bsf sz reg).2.2) ∧
    Event.appendBatchDoc ∉ (run d dbname (FilterInput.malformed err) bsf sz reg).2.2 ∧
    ∀ i, Event.registerCursor i ∉
      (run d dbname (FilterInput.malformed err) bsf sz reg).2.2 := by
  refine ⟨rfl, rfl, fun ns => ?_, ?_, fun i => ?_⟩ <;> cases d <;> simp [run, dbEvents]

/-- C4 witness: the amended abort behavior at a concrete invocation. -/
theorem malformed_filter_aborts_witness :
    (run (some oneDb) "db" (FilterInput.malformed "x") .absent exSz reg0).1 =
      Response.error "x" ∧
    (run (some oneDb) "db" (FilterInput.malformed "x") .absent exSz reg0).2.1 = reg0 :=
  ⟨(malformed_filter_aborts (some oneDb) "db" "x" .absent exSz reg0).1,
    (malformed_filter_aborts (some oneDb) "db" "x" .absent exSz reg0).2.1⟩

/-- C5 counterexample: with one matching collection, batchSize −2 yields an
empty first batch and a registered cursor, while an absent batchSize yields
the whole result — a negative value other than −1 does not behave like the
absent case. -/
theorem negative_batchSize_cex :
    (run (some oneDb) "db" .absent (.num (-2)) exSz reg0).1 =
      Response.ok 1 (cursorNamespace "db") [] ∧
    (run (some oneDb) "db" .absent .absent exSz reg0).1 =
      Response.ok 0 (cursorNamespace "db") [⟨"a", "o"⟩] := by
  exact ⟨by decide, by decide⟩

/-- C5 amended: an absent (or non-numeric) batchSize and the sentinel −1 are
unbounded by count and behave identically, but any other negative batchSize
makes the count condition fail immediately, so the first batch is empty. -/
theorem batchSize_negative_amended (d : Option DbCatalog) (dbname : String)
    (f : FilterInput) (sz : CollDoc → Nat) (reg : Registry) (n : Int)
    (hn : n < 0) (hne : n ≠ -1) :
    run d dbname f (.num (-1)) sz reg = run d dbname f .absent sz reg ∧
    firstBatchOf (run d dbname f (.num n) sz reg).1 = [] := by
  constructor
  · cases f <;> rfl
  · cases f with
    | malformed e => rfl
    | absent =>
      rw [show run d dbname .absent (.num n) sz reg
          = runParsed d dbname none [] (.num n) sz reg from rfl,
        runParsed_firstBatch]
      exact batchLoop_neg sz _ n hn hne _
    | valid p =>
      rw [show run d dbname (.valid p) (.num n) sz reg
          = runParsed d dbname (some p) [Event.parseFilter] (.num n) sz reg from rfl,
        runParsed_firstBatch]
      exact batchLoop_neg sz _ n hn hne _

/-- C5 witness: the amended behavior at batchSize −2 on a one-collection
database. -/
theorem batchSize_negative_witness :
    run (some oneDb) "db" .absent (.num (-1)) exSz reg0 =
      run (some oneDb) "db" .absent .absent exSz reg0 ∧
    firstBatchOf (run (some oneDb) "db" .absent (.num (-2)) exSz reg0).1 = [] :=
  ⟨(batchSize_negative_amended (some oneDb) "db" .absent exSz reg0 (-2)
      (by decide) (by decide)).1,
    (batchSize_negative_amended (some oneDb) "db" .absent exSz reg0 (-2)
      (by decide) (by decide)).2⟩

/-- C6: the batch loop appends staged documents one at a time in order (the
batch is a prefix of the staged sequence); a non-negative requested maximum
bounds the count; if the loop stopped before end-of-sequence then a limit had
been reached (byte ceiling or count); before every appended document neither
limit was hit; and the command never returns an error for hitting a limit
(every parsed invocation produces an ok response). -/
theorem batch_production_limits (sz : CollDoc → Nat) (byteLimit : Nat) (bs : Int)
    (docs : List CollDoc) :
    batchLoop sz byteLimit bs docs 0 0 =
      docs.take (batchLoop sz byteLimit bs docs 0 0).length ∧
    (0 ≤ bs → ((batchLoop sz byteLimit bs docs 0 0).length : Int) ≤ bs) ∧
    ((batchLoop sz byteLimit bs docs 0 0).length < docs.length →
      byteLimit ≤ sumSz sz (docs.take (batchLoop sz byteLimit bs docs 0 0).length) ∨
        (bs ≠ -1 ∧ bs ≤ ((batchLoop sz byteLimit bs docs 0 0).length : Int))) ∧
    (∀ j < (batchLoop sz byteLimit bs docs 0 0).length,
      sumSz sz (docs.take j) < byteLimit ∧ (bs = -1 ∨ (j : Int) < bs)) ∧
    (sumSz sz docs < byteLimit → (bs = -1 ∨ (docs.length : Int) < bs) →
      batchLoop sz byteLimit bs docs 0 0 = docs) ∧
    ∀ (d : Option DbCatalog) (dbname : String) (bsf : BatchSizeField) (reg : Registry),
      isOk (run d dbname .absent bsf sz reg).1 = true ∧
      ∀ p, isOk (run d dbname (.valid p) bsf sz reg).1 = true := by
  refine ⟨batchLoop_take sz byteLimit bs docs 0 0, fun hbs => ?_, fun hlt => ?_,
    fun j hj => ?_, fun hball hcall => ?_, fun d dbname bsf reg => ⟨?_, fun p => ?_⟩⟩
  · have h := batchLoop_count_le sz byteLimit bs hbs docs 0 0
    omega
  · have h := batchLoop_stop sz byteLimit bs docs 0 0 hlt
    rcases not_and_or.mp h with h | h
    · left; omega
    · rcases not_or.mp h with ⟨h1, h2⟩
      right
      exact ⟨h1, by omega⟩
  · have h := batchLoop_go sz byteLimit bs docs 0 0 j hj
    refine ⟨by have := h.1; omega, ?_⟩
    rcases h.2 with h' | h'
    · exact Or.inl h'
    · right; omega
  · refine batchLoop_drain sz byteLimit bs docs 0 0 (by omega) ?_
    rcases hcall with h' | h'
    · exact Or.inl h'
    · right; omega
  · exact runParsed_isOk d dbname none [] bsf sz reg
  · exact runParsed_isOk d dbname (some p) [Event.parseFilter] bsf sz reg

/-- C6 witness: with byte ceiling 10 and requested maximum 2 over three staged
documents, the loop emits at most 2 documents and a concrete invocation
returns an ok response. -/
theorem batch_production_limits_witness :
    ((batchLoop exSz 10 2 [⟨"a", "o"⟩, ⟨"b", "o"⟩, ⟨"c", "o"⟩] 0 0).length : Int) ≤ 2 ∧
    isOk (run (some oneDb) "db" .absent .absent exSz reg0).1 = true :=
  ⟨(batch_production_limits exSz 10 2 [⟨"a", "o"⟩, ⟨"b", "o"⟩, ⟨"c", "o"⟩]).2.1
      (by decide),
    ((batch_production_limits exSz 10 2 [⟨"a", "o"⟩, ⟨"b", "o"⟩, ⟨"c", "o"⟩]).2.2.2.2.2
      (some oneDb) "db" .absent reg0).1⟩

/-- C7 counterexample: an invocation naming an absent database but carrying a
malformed filter does not succeed — it returns the structured parse error,
so "every invocation naming a database that does not exist succeeds" fails. -/
theorem absent_db_error_cex :
    (run none "nosuchdb" (FilterInput.malformed "bad") .absent exSz reg0).1 =
      Response.error "bad" ∧
    isOk (run none "nosuchdb" (FilterInput.malformed "bad") .absent exSz reg0).1
      = false := by
  exact ⟨rfl, rfl⟩

/-- C7 amended: an invocation naming an absent database whose filter is absent
or well-formed succeeds with cursor id 0, an empty first batch, and no cursor
creation (an invocation with a malformed filter still fails with the parse
error). -/
theorem absent_db_empty_complete (dbname : String) (bsf : BatchSizeField)
    (sz : CollDoc → Nat) (reg : Registry) :
    run none dbname .absent bsf sz reg =
      (Response.ok 0 (cursorNamespace dbname) [], reg,
        [Event.acquireLock, Event.releaseLock]) ∧
    ∀ p, run none dbname (.valid p) bsf sz reg =
      (Response.ok 0 (cursorNamespace dbname) [], reg,
        [Event.acquireLock, Event.parseFilter, Event.releaseLock]) := by
  exact ⟨rfl, fun p => rfl⟩

/-- C8: for a fixed catalog, filter and batchSize, the response is the same
up to the concrete cursor identifier — error status, namespace, the ordered
first batch, and whether a cursor was created are all independent of the
registry state, so consecutive invocations produce identical ordered
output. -/
theorem deterministic_ordered_output (d : Option DbCatalog) (dbname : String)
    (f : FilterInput) (bsf : BatchSizeField) (sz : CollDoc → Nat)
    (reg reg' : Registry) :
    responseView (run d dbname f bsf sz reg).1 =
      responseView (run d dbname f bsf sz reg').1 := by
  cases f with
  | malformed e => rfl
  | absent =>
    rw [show run d dbname .absent bsf sz reg
        = runParsed d dbname none [] bsf sz reg from rfl,
      show run d dbname .absent bsf sz reg'
        = runParsed d dbname none [] bsf sz reg' from rfl,
      runParsed_view, runParsed_view]
  | valid p =>
    rw [show run d dbname (.valid p) bsf sz reg
        = runParsed d dbname (some p) [Event.parseFilter] bsf sz reg from rfl,
      show run d dbname (.valid p) bsf sz reg'
        = runParsed d dbname (some p) [Event.parseFilter] bsf sz reg' from rfl,
      runParsed_view, runParsed_view]

/-- C9 counterexample: in a concrete invocation a batch-append event occurs
before any lock-release event — the scoped lock guard is still held while the
first batch is produced, contradicting "released before batch production". -/
theorem lock_held_during_batch_cex :
    appendBeforeRelease (run (some oneDb) "db" .absent .absent exSz reg0).2.2
      = true := by decide

/-- C9 amended: the lock scope spans the whole invocation — every trace starts
with the lock acquisition, ends with the single lock release, and that
release happens after batch production and any cursor registration. -/
theorem lock_scope_spans_invocation (d : Option DbCatalog) (dbname : String)
    (f : FilterInput) (bsf : BatchSizeField) (sz : CollDoc → Nat) (reg : Registry) :
    (run d dbname f bsf sz reg).2.2.head? = some Event.acquireLock ∧
    (run d dbname f bsf sz reg).2.2.getLast? = some Event.releaseLock ∧
    (run d dbname f bsf sz reg).2.2.count Event.releaseLock = 1 := by
  have hdb : Event.releaseLock ∉ dbEvents d := by cases d <;> simp [dbEvents]
  have hmat : ∀ m : Option (CollDoc → Bool),
      Event.releaseLock ∉ (stagedWithEvents d m).2 := by
    intro m
    cases d with
    | none => simp [stagedWithEvents]
    | some db =>
      rw [show (stagedWithEvents (some db) m).2
          = (materialize db m (sortStrings db.nss)).2 from rfl, materialize_events]
      intro hmem
      rcases List.mem_map.mp hmem with ⟨ns, -, hx⟩
      exact Event.noConfusion hx
  have happ : ∀ l : List CollDoc,
      Event.releaseLock ∉ l.map (fun _ => Event.appendBatchDoc) := by
    intro l hmem
    rcases List.mem_map.mp hmem with ⟨x, -, hx⟩
    exact Event.noConfusion hx
  cases f with
  | malformed e =>
    rw [show (run d dbname (.malformed e) bsf sz reg).2.2
        = Event.acquireLock ::
            ((dbEvents d ++ [Event.parseFilter]) ++ [Event.releaseLock]) by simp [run]]
    exact trace_head_last_count (dbEvents d ++ [Event.parseFilter])
      (by simp [List.mem_append, hdb])
  | absent =>
    rw [show run d dbname .absent bsf sz reg
        = runParsed d dbname none [] bsf sz reg from rfl]
    simp only [runParsed]
    split
    · exact trace_head_last_count _
        (by simp [List.mem_append, hdb, hmat none, happ])
    · exact trace_head_last_count2 _ _
        (by simp [List.mem_append, hdb, hmat none, happ])
  | valid p =>
    rw [show run d dbname (.valid p) bsf sz reg
        = runParsed d dbname (some p) [Event.parseFilter] bsf sz reg from rfl]
    simp only [runParsed]
    split
    · exact trace_head_last_count _
        (by simp [List.mem_append, hdb, hmat (some p), happ])
    · exact trace_head_last_count2 _ _
        (by simp [List.mem_append, hdb, hmat (some p), happ])

/-- C10: batchSize 0 with a non-empty filtered result yields an empty first
batch together with a freshly registered, non-zero cursor id, and a
non-numeric batchSize behaves exactly like an absent one. -/
theorem batchSize_zero_and_nonnumeric (d : Option DbCatalog) (dbname : String)
    (sz : CollDoc → Nat) (reg : Registry) (p : CollDoc → Bool) :
    (stagedResult d none ≠ [] →
      (run d dbname .absent (.num 0) sz reg).1 =
        Response.ok (reg.nextId + 1) (cursorNamespace dbname) [] ∧
      reg.nextId + 1 ≠ 0 ∧
      Event.registerCursor (reg.nextId + 1) ∈
        (run d dbname .absent (.num 0) sz reg).2.2) ∧
    (stagedResult d (some p) ≠ [] →
      (run d dbname (.valid p) (.num 0) sz reg).1 =
        Response.ok (reg.nextId + 1) (cursorNamespace dbname) [] ∧
      reg.nextId + 1 ≠ 0 ∧
      Event.registerCursor (reg.nextId + 1) ∈
        (run d dbname (.valid p) (.num 0) sz reg).2.2) ∧
    ∀ f, run d dbname f .nonNumeric sz reg = run d dbname f .absent sz reg := by
  refine ⟨fun h => ?_, fun h => ?_, fun f => by cases f <;> rfl⟩
  · have hz := runParsed_zero_registers d dbname none [] sz reg h
    rw [show run d dbname .absent (.num 0) sz reg
        = runParsed d dbname none [] (.num 0) sz reg from rfl]
    exact ⟨hz.1, Nat.succ_ne_zero reg.nextId, hz.2⟩
  · have hz := runParsed_zero_registers d dbname (some p) [Event.parseFilter] sz reg h
    rw [show run d dbname (.valid p) (.num 0) sz reg
        = runParsed d dbname (some p) [Event.parseFilter] (.num 0) sz reg from rfl]
    exact ⟨hz.1, Nat.succ_ne_zero reg.nextId, hz.2⟩

/-- C10 witness: batchSize 0 against a one-collection database gives an empty
first batch and the non-zero cursor id 1. -/
theorem batchSize_zero_witness :
    stagedResult (some oneDb) none ≠ [] ∧
    (run (some oneDb) "db" .absent (.num 0) exSz reg0).1 =
      Response.ok 1 (cursorNamespace "db") [] :=
  ⟨by decide,
    ((batchSize_zero_and_nonnumeric (some oneDb) "db" exSz reg0
      (fun _ => true)).1 (by decide)).1⟩

end ListColl
